import Mathlib

/-!
Verification of the cache-fallback data loader and the event-creation flow of
the volunteer-events app.

The repository's only non-UI logic is the "network-first, cache-fallback"
loading strategy (`getFromNetworkFirst` / `setInCache` from
`src/services/caching`, called from `src/pages/EventsMap.tsx`), plus the
event-creation validation in the CreateEvent screen.  The caching service
itself is not among the provided sources (only its caller is), so the loader is
modelled from the specification; everything else is translated from the
sources.

JSON values are modelled by an explicit AST (`Json`), serialization by a
character-level printer and `JSON.parse` by a character-level recursive-descent
reader, so that the serialization round-trip is a real theorem about running
code.  Numbers are modelled as exact decimals `m / 10 ^ f` (the decimal
numerals that actually appear on the JSON wire).
-/

/-! ## Characters and digits -/

/-- The double-quote character. -/
def qchar : Char := Char.ofNat 34

/-- The backslash character. -/
def bslash : Char := Char.ofNat 92

/-- Opening curly bracket. -/
def lbrace : Char := Char.ofNat 123

/-- Closing curly bracket. -/
def rbrace : Char := Char.ofNat 125

/-- Newline. -/
def nlChar : Char := Char.ofNat 10

/-- Horizontal tab. -/
def tabChar : Char := Char.ofNat 9

/-- Carriage return. -/
def crChar : Char := Char.ofNat 13

/-- Backspace. -/
def bsChar : Char := Char.ofNat 8

/-- Form feed. -/
def ffChar : Char := Char.ofNat 12

/-- Is `c` a decimal digit? -/
def isDig (c : Char) : Bool := 48 ≤ c.toNat && c.toNat ≤ 57

/-- The digit character for `n < 10`. -/
def digitChar (n : Nat) : Char := Char.ofNat (48 + n)

/-- Numeric value of a digit character. -/
def digVal (c : Char) : Nat := c.toNat - 48

/-- Fuel-driven digit printer; any fuel above `n` suffices. -/
def natCharsAux : Nat → Nat → List Char
  | 0, _ => []
  | fuel + 1, n =>
    if n < 10 then [digitChar n]
    else natCharsAux fuel (n / 10) ++ [digitChar (n % 10)]

/-- Decimal digits of `n`, most significant first (`"0"` for `0`). -/
def natChars (n : Nat) : List Char := natCharsAux (n + 1) n

/-- Left-pad a digit list with zeros up to width `k`. -/
def padZeros (k : Nat) (ds : List Char) : List Char :=
  List.replicate (k - ds.length) '0' ++ ds

/-- Lower-case hexadecimal digit character for `n < 16`. -/
def hexChar (n : Nat) : Char :=
  if n < 10 then Char.ofNat (48 + n) else Char.ofNat (87 + n)

/-- Value of a hexadecimal digit character (accepts both cases). -/
def hexVal (c : Char) : Option Nat :=
  if 48 ≤ c.toNat && c.toNat ≤ 57 then some (c.toNat - 48)
  else if 97 ≤ c.toNat && c.toNat ≤ 102 then some (c.toNat - 87)
  else if 65 ≤ c.toNat && c.toNat ≤ 70 then some (c.toNat - 55)
  else none

/-! ## The JSON value model -/

/-- JSON values.  A number is the exact decimal `m / 10 ^ f`, which is the
form numbers take on the JSON wire. -/
inductive Json where
  | jnull : Json
  | jbool (b : Bool) : Json
  | jnum (m : Int) (f : Nat) : Json
  | jstr (s : String) : Json
  | jarr (xs : List Json) : Json
  | jobj (fields : List (String × Json)) : Json

/-! ## Serializer (the model of `JSON.stringify`) -/

/-- Escape a single character for a JSON string literal. -/
def escChar (c : Char) : List Char :=
  if c = qchar then [bslash, qchar]
  else if c = bslash then [bslash, bslash]
  else if c = nlChar then [bslash, 'n']
  else if c = tabChar then [bslash, 't']
  else if c = crChar then [bslash, 'r']
  else if c = bsChar then [bslash, 'b']
  else if c = ffChar then [bslash, 'f']
  else if c.toNat < 32 then
    [bslash, 'u', '0', '0', hexChar (c.toNat / 16), hexChar (c.toNat % 16)]
  else [c]

/-- Escape a list of characters. -/
def escList : List Char → List Char
  | [] => []
  | c :: cs => escChar c ++ escList cs

/-- Serialize a string (with surrounding quotes). -/
def serStrChars (s : String) : List Char :=
  qchar :: (escList s.data ++ [qchar])

/-- Serialize the decimal number `m / 10 ^ f`. -/
def serNum (m : Int) (f : Nat) : List Char :=
  let a := m.natAbs
  let sign : List Char := if m < 0 then ['-'] else []
  sign ++ natChars (a / 10 ^ f) ++
    (if f = 0 then [] else '.' :: padZeros f (natChars (a % 10 ^ f)))

mutual

/-- Serialize a JSON value to characters. -/
def serChars : Json → List Char
  | .jnull => ['n', 'u', 'l', 'l']
  | .jbool true => ['t', 'r', 'u', 'e']
  | .jbool false => ['f', 'a', 'l', 's', 'e']
  | .jnum m f => serNum m f
  | .jstr s => serStrChars s
  | .jarr [] => ['[', ']']
  | .jarr (x :: xs) => '[' :: ((serChars x ++ serItems xs) ++ [']'])
  | .jobj [] => [lbrace, rbrace]
  | .jobj (kv :: t) => lbrace :: ((serKV kv ++ serFTail t) ++ [rbrace])

/-- Serialize the tail of an array: each element preceded by a comma. -/
def serItems : List Json → List Char
  | [] => []
  | x :: xs => ',' :: (serChars x ++ serItems xs)

/-- Serialize one object field `key:value`. -/
def serKV : String × Json → List Char
  | (k, v) => serStrChars k ++ ':' :: serChars v

/-- Serialize the tail of an object: each field preceded by a comma. -/
def serFTail : List (String × Json) → List Char
  | [] => []
  | kv :: t => ',' :: (serKV kv ++ serFTail t)

end

/-- `JSON.stringify` over the model. -/
def jserialize (v : Json) : String := String.mk (serChars v)

/-! ## Reader (the model of `JSON.parse`) -/

/-- Read the body of a string literal (after the opening quote), undoing the
serializer's escapes.  Returns the decoded characters and the remaining
input. -/
def pStrBody : List Char → Option (List Char × List Char)
  | [] => none
  | c :: cs =>
    if c = qchar then some ([], cs)
    else if c = bslash then
      match cs with
      | [] => none
      | e :: cs2 =>
        if e = qchar then (pStrBody cs2).map (fun p => (qchar :: p.1, p.2))
        else if e = bslash then (pStrBody cs2).map (fun p => (bslash :: p.1, p.2))
        else if e = 'n' then (pStrBody cs2).map (fun p => (nlChar :: p.1, p.2))
        else if e = 't' then (pStrBody cs2).map (fun p => (tabChar :: p.1, p.2))
        else if e = 'r' then (pStrBody cs2).map (fun p => (crChar :: p.1, p.2))
        else if e = 'b' then (pStrBody cs2).map (fun p => (bsChar :: p.1, p.2))
        else if e = 'f' then (pStrBody cs2).map (fun p => (ffChar :: p.1, p.2))
        else if e = 'u' then
          match cs2 with
          | h1 :: h2 :: h3 :: h4 :: cs3 =>
            match hexVal h1, hexVal h2, hexVal h3, hexVal h4 with
            | some a, some b, some c3, some d =>
              (pStrBody cs3).map
                (fun p => (Char.ofNat (((a * 16 + b) * 16 + c3) * 16 + d) :: p.1, p.2))
            | _, _, _, _ => none
          | _ => none
        else none
    else if c.toNat < 32 then none
    else (pStrBody cs).map (fun p => (c :: p.1, p.2))

/-- Read a maximal run of decimal digits, accumulating into `acc`.
Returns the value, the number of digits consumed and the rest. -/
def readNat : List Char → Nat → Nat × Nat × List Char
  | [], acc => (acc, 0, [])
  | c :: cs, acc =>
    if isDig c then
      let r := readNat cs (acc * 10 + digVal c)
      (r.1, r.2.1 + 1, r.2.2)
    else (acc, 0, c :: cs)

/-- Apply a sign to a natural number. -/
def mkInt (sign : Bool) (n : Nat) : Int := if sign then -(n : Int) else (n : Int)

/-- Read an unsigned JSON numeral (integer digits, optional fraction) and
apply `sign` to it. -/
def pNumBody (sign : Bool) (cs : List Char) : Option ((Int × Nat) × List Char) :=
  match cs with
  | [] => none
  | c :: _ =>
    if isDig c then
      match readNat cs 0 with
      | (a, _, '.' :: r2) =>
        (match r2 with
         | d :: _ =>
           if isDig d then
             match readNat r2 0 with
             | (b, k, r3) => some ((mkInt sign (a * 10 ^ k + b), k), r3)
           else none
         | [] => none)
      | (a, _, r1) => some ((mkInt sign a, 0), r1)
    else none

/-- Read a JSON number: an optional leading minus, then the numeral. -/
def pNum : List Char → Option ((Int × Nat) × List Char)
  | [] => none
  | c :: r => if c = '-' then pNumBody true r else pNumBody false (c :: r)

mutual

/-- Read one JSON value.  `fuel` bounds the recursion depth; any fuel at least
the length of the input suffices. -/
def pVal : Nat → List Char → Option (Json × List Char)
  | 0, _ => none
  | fuel + 1, cs =>
    match cs with
    | [] => none
    | c :: rest =>
      if c = 'n' then
        match rest with
        | 'u' :: 'l' :: 'l' :: r => some (.jnull, r)
        | _ => none
      else if c = 't' then
        match rest with
        | 'r' :: 'u' :: 'e' :: r => some (.jbool true, r)
        | _ => none
      else if c = 'f' then
        match rest with
        | 'a' :: 'l' :: 's' :: 'e' :: r => some (.jbool false, r)
        | _ => none
      else if c = qchar then
        (pStrBody rest).map (fun p => (.jstr (String.mk p.1), p.2))
      else if c = '[' then
        match rest with
        | ']' :: r => some (.jarr [], r)
        | _ => (pVal fuel rest).bind (fun p => pMore fuel p.2 [p.1])
      else if c = lbrace then
        match rest with
        | [] => none
        | r1 :: r =>
          if r1 = rbrace then some (.jobj [], r)
          else (pOneField fuel (r1 :: r)).bind (fun p => pFMore fuel p.2 [p.1])
      else
        (pNum (c :: rest)).map (fun p => (.jnum p.1.1 p.1.2, p.2))

/-- Read the remaining elements of an array (expects `,` or `]`). -/
def pMore : Nat → List Char → List Json → Option (Json × List Char)
  | 0, _, _ => none
  | fuel + 1, cs, acc =>
    match cs with
    | ']' :: r => some (.jarr acc, r)
    | ',' :: r => (pVal fuel r).bind (fun p => pMore fuel p.2 (acc ++ [p.1]))
    | _ => none

/-- Read one `key:value` field of an object. -/
def pOneField : Nat → List Char → Option ((String × Json) × List Char)
  | 0, _ => none
  | fuel + 1, cs =>
    match cs with
    | [] => none
    | c :: rest =>
      if c = qchar then
        (pStrBody rest).bind (fun q =>
          match q.2 with
          | ':' :: r2 => (pVal fuel r2).map (fun p => ((String.mk q.1, p.1), p.2))
          | _ => none)
      else none

/-- Read the remaining fields of an object (expects `,` or the closing
bracket). -/
def pFMore : Nat → List Char → List (String × Json) → Option (Json × List Char)
  | 0, _, _ => none
  | fuel + 1, cs, acc =>
    match cs with
    | [] => none
    | c :: r =>
      if c = rbrace then some (.jobj acc, r)
      else if c = ',' then
        (pOneField fuel r).bind (fun p => pFMore fuel p.2 (acc ++ [p.1]))
      else none

end

/-- `JSON.parse` over the model: read one value consuming the whole input. -/
def jparse (s : String) : Option Json :=
  match pVal (s.data.length + 1) s.data with
  | some (v, []) => some v
  | _ => none

/-! ## Digit-run values and the wire-format boundary -/

/-- Value of a digit run, accumulating left to right into `acc`. -/
def foldD : List Char → Nat → Nat
  | [], acc => acc
  | c :: cs, acc => foldD cs (acc * 10 + digVal c)

/-- Are all characters decimal digits? -/
def allDig (ds : List Char) : Bool := ds.all isDig

/-- A serialized number may only be followed by input that cannot extend it:
nothing, or a character that is neither a digit nor a decimal point. -/
def numBoundary : List Char → Bool
  | [] => true
  | c :: _ => !isDig c && !(c = '.')

/-- The input does not begin with a digit (so a digit run cannot extend). -/
def noDigStart : List Char → Bool
  | [] => true
  | c :: _ => !isDig c

/-! ## The persistent key-value store

`AsyncStorage` as used by the repository: an external string-to-string
mapping addressed by `get`/`set`/`multiRemove`. -/

/-- The persistent store: keys to serialized values. -/
abbrev Store := String → Option String

/-- The empty store. -/
def emptyStore : Store := fun _ => none

/-- `set`: overwrite the entry for `key`. -/
def setStore (store : Store) (key v : String) : Store :=
  fun q => if q = key then some v else store q

/-- `multiRemove`: delete every key in `ks`. -/
def removeAll (store : Store) (ks : List String) : Store :=
  fun q => if q ∈ ks then none else store q

/-! ## The cache-first loader (modelled from the spec) -/

/-- A hard failure of the loader. -/
inductive LoadError where
  | unavailable (origin : String)
deriving DecidableEq

/-- The non-exception side channel used to signal degraded results. -/
inductive Notice where
  | staleDataServed
deriving DecidableEq

/-- Operations the loader performs, in order, within one call. -/
inductive LoadOp where
  | opFetch
  | opGet (key : String)
  | opSet (key : String)
deriving DecidableEq

/-- Everything one call to the loader produces. -/
structure LoadOutcome where
  result : Except LoadError Json
  store : Store
  notice : Option Notice
  trace : List LoadOp

/-- Modelled from the spec: `getFromNetworkFirst` of `src/services/caching`
is not among the provided sources (only its caller in
`src/pages/EventsMap.tsx` is), so the loader is modelled from §4.1 of the
specification.  Invoke the supplied network operation (once); on success,
serialize and persist the result under `key` — best-effort: `setOk` says
whether the store accepted the write, and a refused write does not fail the
call — then return the fresh value.  On failure, read `key` from the store:
if a cached value exists, deserialize and return it together with a
stale-data notice; otherwise fail with `Unavailable` wrapping the original
network error.  The trace records the fetch and store operations
performed. -/
def getFromNetworkFirst (key : String) (fetchFresh : Unit → Except String Json)
    (setOk : Bool) (store : Store) : LoadOutcome :=
  match fetchFresh () with
  | .ok v =>
    { result := .ok v,
      store := if setOk then setStore store key (jserialize v) else store,
      notice := none,
      trace := [.opFetch, .opSet key] }
  | .error e =>
    match store key with
    | some cached =>
      match jparse cached with
      | some v =>
        { result := .ok v, store := store, notice := some .staleDataServed,
          trace := [.opFetch, .opGet key] }
      | none =>
        { result := .error (.unavailable e), store := store, notice := none,
          trace := [.opFetch, .opGet key] }
    | none =>
      { result := .error (.unavailable e), store := store, notice := none,
        trace := [.opFetch, .opGet key] }

/-- Modelled from the spec: `setInCache` of `src/services/caching` is not
among the provided sources; per §4.1/§6 it serializes the value and writes
it under `key` (`setOk` = the store accepted the write). -/
def setInCache (key : String) (v : Json) (setOk : Bool) (store : Store) : Store :=
  if setOk then setStore store key (jserialize v) else store

/-- The entry for `key`, if present, deserializes: the invariant the loader
itself maintains, since it only ever writes serialized values. -/
def wellFormedAt (store : Store) (key : String) : Prop :=
  ∀ s, store key = some s → (jparse s).isSome = true

/-- Is an `Except` result a hard failure? -/
def exceptIsError {ε α : Type} : Except ε α → Bool
  | .error _ => true
  | .ok _ => false

/-! ## The EventsMap call site (src/pages/EventsMap.tsx) -/

/-- Observable steps of `fetchAndCacheEvents`, in order. -/
inductive COp where
  | networkStart
  | loadStart
  | cacheWrite (key : String)
  | setEventsCall
  | alertShown
  | cacheRead (key : String)
deriving DecidableEq

/-- What one run of `fetchAndCacheEvents` produces: the value passed to
`setEvents` (if any), the resulting store, and the ordered trace. -/
structure FetchOutcome where
  events : Option Json
  store : Store
  trace : List COp

/-- The `catch` branch of `fetchAndCacheEvents` (lines 51-54): show the
offline alert, read `events_future` from `AsyncStorage`, and if an entry
exists, `setEvents(JSON.parse(cached))`. -/
def offlineCatch (store : Store) (pre : List COp) : FetchOutcome :=
  match store "events_future" with
  | some cached =>
    match jparse cached with
    | some v =>
      { events := some v, store := store,
        trace := pre ++ [.alertShown, .cacheRead "events_future", .setEventsCall] }
    | none =>
      { events := none, store := store,
        trace := pre ++ [.alertShown, .cacheRead "events_future"] }
  | none =>
    { events := none, store := store,
      trace := pre ++ [.alertShown, .cacheRead "events_future"] }

/-- Embeds `fetchAndCacheEvents` (src/pages/EventsMap.tsx, lines 44-60).

At the call site
`getFromNetworkFirst('events_future', getEvents().then(r => r.data))`
the argument expression `getEvents().then(...)` is evaluated before
`getFromNetworkFirst` is invoked (JavaScript evaluates arguments before the
call), so the network operation starts at the call site; `netResult` is its
eventual outcome and the trace records `networkStart` at argument-evaluation
time, before `loadStart`.  The loader then awaits the already-started
operation, modelled by handing it the constant operation
`fun _ => netResult`.  On success the response is cached again under the
same key (line 49, `setOk2` = that second write succeeded; its rejection is
caught by the `catch`) and passed to `setEvents`.  On any thrown error the
`catch` branch runs (`offlineCatch`). -/
def fetchAndCacheEvents (netResult : Except String Json) (setOk1 setOk2 : Bool)
    (store : Store) : FetchOutcome :=
  let pre : List COp := [.networkStart, .loadStart]
  let out := getFromNetworkFirst "events_future" (fun _ => netResult) setOk1 store
  match out.result with
  | .ok v =>
    if setOk2 then
      { events := some v,
        store := setInCache "events_future" v true out.store,
        trace := pre ++ [.cacheWrite "events_future", .setEventsCall] }
    else offlineCatch out.store pre
  | .error _ => offlineCatch out.store pre

/-- The keys cleared on logout (src/pages/EventsMap.tsx, line 74). -/
def logoutKeys : List String := ["userInfo", "accessToken"]

/-- Embeds the store effect of `handleLogout` (src/pages/EventsMap.tsx,
lines 73-78): `AsyncStorage.multiRemove(['userInfo', 'accessToken'])`.
(The remaining statements clear the in-memory auth context and navigate;
they do not touch the store.) -/
def handleLogout (store : Store) : Store := removeAll store logoutKeys

/-! ## Event records on the JSON wire (src/types/Event.ts) -/

/-- One event record as it appears on the JSON wire: numeric fields are the
decimal numerals `m / 10 ^ f` that `JSON.stringify` emits. -/
structure EventWire where
  id : String
  name : String
  description : String
  dateTime : String
  organizerId : String
  latM : Int
  latF : Nat
  lngM : Int
  lngF : Nat
  imageUrl : Option String
  vnM : Int
  vnF : Nat
  volunteersIds : List String

/-- The JSON object for one event record, fields in the order of
`src/types/Event.ts`, with the nested `position` object; an absent
`imageUrl` is omitted (as `JSON.stringify` omits `undefined` fields). -/
def eventWireJson (e : EventWire) : Json :=
  Json.jobj ([("id", Json.jstr e.id), ("name", Json.jstr e.name),
    ("description", Json.jstr e.description), ("dateTime", Json.jstr e.dateTime),
    ("organizerId", Json.jstr e.organizerId),
    ("position", Json.jobj [("latitude", Json.jnum e.latM e.latF),
      ("longitude", Json.jnum e.lngM e.lngF)])] ++
    (match e.imageUrl with
     | some u => [("imageUrl", Json.jstr u)]
     | none => []) ++
    [("volunteersNeeded", Json.jnum e.vnM e.vnF),
     ("volunteersIds", Json.jarr (e.volunteersIds.map Json.jstr))])

/-- A list of event records as a JSON array. -/
def eventsWireJson (es : List EventWire) : Json := Json.jarr (es.map eventWireJson)

/-! ## JavaScript numbers and `Number(...)` (CreateEvent screen) -/

/-- A JavaScript number as the creation flow observes it: NaN, a signed
infinity, or the exact decimal `m * 10 ^ e` (doubles are modelled by the
exact decimals their literals denote). -/
inductive JsNum where
  | nan : JsNum
  | inf (neg : Bool) : JsNum
  | fin (m : Int) (e : Int) : JsNum
deriving DecidableEq

/-- The whitespace characters `Number(...)` and `trim()` strip. -/
def isJsWs (c : Char) : Bool :=
  c.toNat = 9 || c.toNat = 10 || c.toNat = 11 || c.toNat = 12 || c.toNat = 13 ||
  c.toNat = 32 || c.toNat = 160 || c.toNat = 8232 || c.toNat = 8233 ||
  c.toNat = 65279

/-- Strip leading and trailing JS whitespace. -/
def jsTrimList (cs : List Char) : List Char :=
  ((cs.dropWhile isJsWs).reverse.dropWhile isJsWs).reverse

/-- `String.prototype.trim`. -/
def jsTrim (s : String) : String := String.mk (jsTrimList s.data)

/-- Read a whole string of base-`b` digits (b = 2, 8 or 16). -/
def readBase (b : Nat) : List Char → Nat → Option Nat
  | [], acc => some acc
  | c :: cs, acc =>
    match hexVal c with
    | some v => if v < b then readBase b cs (acc * b + v) else none
    | none => none

/-- The exponent suffix of a decimal literal (empty, or `e`/`E`, an
optional sign and digits reaching the end of the input). -/
def readExp : List Char → Option Int
  | [] => some 0
  | e :: r =>
    if e = 'e' || e = 'E' then
      let sp : Bool × List Char :=
        match r with
        | c :: r2 =>
          if c = '-' then (true, r2) else if c = '+' then (false, r2) else (false, r)
        | [] => (false, [])
      let rd := readNat sp.2 0
      if rd.2.1 = 0 then none
      else
        match rd.2.2 with
        | [] => some (mkInt sp.1 rd.1)
        | _ => none
    else none

/-- The decimal or Infinity body of `Number(...)`, after the sign. -/
def jsDecBody (sign : Bool) (cs : List Char) : JsNum :=
  match cs with
  | 'I' :: 'n' :: 'f' :: 'i' :: 'n' :: 'i' :: 't' :: 'y' :: [] => .inf sign
  | _ =>
    let r1 := readNat cs 0
    match r1.2.2 with
    | '.' :: r2 =>
      let r3 := readNat r2 0
      if r1.2.1 + r3.2.1 = 0 then .nan
      else
        match readExp r3.2.2 with
        | some e => .fin (mkInt sign (r1.1 * 10 ^ r3.2.1 + r3.1)) (e - (r3.2.1 : Int))
        | none => .nan
    | rest =>
      if r1.2.1 = 0 then .nan
      else
        match readExp rest with
        | some e => .fin (mkInt sign r1.1) e
        | none => .nan

/-- `Number(string)`: trim; empty is 0; `0x`/`0o`/`0b` integer forms;
otherwise an optionally signed decimal literal or Infinity; anything else
is NaN. -/
def jsNumber (s : String) : JsNum :=
  match jsTrimList s.data with
  | [] => .fin 0 0
  | '0' :: x :: rest =>
    if x = 'x' || x = 'X' then
      match rest with
      | [] => .nan
      | _ =>
        match readBase 16 rest 0 with
        | some n => .fin n 0
        | none => .nan
    else if x = 'o' || x = 'O' then
      match rest with
      | [] => .nan
      | _ =>
        match readBase 8 rest 0 with
        | some n => .fin n 0
        | none => .nan
    else if x = 'b' || x = 'B' then
      match rest with
      | [] => .nan
      | _ =>
        match readBase 2 rest 0 with
        | some n => .fin n 0
        | none => .nan
    else jsDecBody false ('0' :: x :: rest)
  | '-' :: rest => jsDecBody true rest
  | '+' :: rest => jsDecBody false rest
  | cs => jsDecBody false cs

/-- Embeds `numericVolunteers` (src/unnamed/part_000, lines 46-49):
`Number.isFinite(n) ? n : NaN`. -/
def numericVolunteers (s : String) : JsNum :=
  match jsNumber s with
  | .fin m e => .fin m e
  | _ => .nan

/-- `time.split(':')` over the character list. -/
def splitOnColon : List Char → List (List Char)
  | [] => [[]]
  | c :: cs =>
    if c = ':' then [] :: splitOnColon cs
    else
      match splitOnColon cs with
      | [] => [[c]]
      | p :: ps => (c :: p) :: ps

/-- Truncation toward zero of the decimal `m * 10 ^ e`: the
`ToIntegerOrInfinity` step of `setHours`. -/
def jsTruncate (m e : Int) : Int :=
  if 0 ≤ e then m * 10 ^ e.toNat else Int.tdiv m (10 ^ (-e).toNat)

/-- `v || 0`: NaN and zero collapse to zero, everything else passes. -/
def jsOrZero (x : JsNum) : JsNum :=
  match x with
  | .nan => .fin 0 0
  | .fin m e => if m = 0 then .fin 0 0 else .fin m e
  | .inf b => .inf b

/-- The largest valid JavaScript timestamp magnitude, in ms (8.64e15). -/
def maxTimeMs : Nat := 8640000000000000

/-! ## Civil-calendar timestamps and `toISOString` -/

/-- Proleptic-Gregorian (year, month, day) of a day count relative to
1970-01-01, by the standard 400-year-era decomposition.  The day count is
shifted by 1000 eras (400000 years) so the arithmetic stays in `Nat`;
valid JavaScript timestamps stay far inside that range. -/
def civilFromDays (days : Int) : Int × Nat × Nat :=
  let z : Nat := (days + 146816468).toNat
  let era : Nat := z / 146097
  let doe : Nat := z % 146097
  let yoe : Nat := (doe - doe / 1460 + doe / 36524 - doe / 146096) / 365
  let doy : Nat := doe - (365 * yoe + yoe / 4 - yoe / 100)
  let mp : Nat := (5 * doy + 2) / 153
  let d : Nat := doy - (153 * mp + 2) / 5 + 1
  let m : Nat := if mp < 10 then mp + 3 else mp - 9
  ((era : Int) * 400 + (yoe : Int) - 400000 + (if m ≤ 2 then 1 else 0), m, d)

/-- `Date.prototype.toISOString`: `YYYY-MM-DDTHH:MM:SS.sssZ`, with the
expanded `±YYYYYY` year form outside 0..9999. -/
def toISOChars (ts : Int) : List Char :=
  let ms : Nat := (ts % 86400000).toNat
  let c := civilFromDays (ts / 86400000)
  let y := c.1
  (if 0 ≤ y ∧ y ≤ 9999 then padZeros 4 (natChars y.toNat)
   else (if y < 0 then ['-'] else ['+']) ++ padZeros 6 (natChars y.natAbs)) ++
  '-' :: padZeros 2 (natChars c.2.1) ++ '-' :: padZeros 2 (natChars c.2.2) ++
  'T' :: padZeros 2 (natChars (ms / 3600000)) ++
  ':' :: padZeros 2 (natChars (ms / 60000 % 60)) ++
  ':' :: padZeros 2 (natChars (ms / 1000 % 60)) ++
  '.' :: padZeros 3 (natChars (ms % 1000)) ++ ['Z']

/-- `Date.prototype.toISOString` as a string. -/
def toISOString (ts : Int) : String := String.mk (toISOChars ts)

/-- Does a 20-character `-MM-DDTHH:MM:SS.sssZ` tail follow the year digits
`ys`, with in-range date and time components? -/
def isIso8601Core (ys rest : List Char) : Bool :=
  allDig ys &&
  (match rest with
   | '-' :: m1 :: m2 :: '-' :: d1 :: d2 :: 'T' :: h1 :: h2 :: ':' :: i1 :: i2 ::
       ':' :: s1 :: s2 :: '.' :: f1 :: f2 :: f3 :: 'Z' :: [] =>
     allDig [m1, m2, d1, d2, h1, h2, i1, i2, s1, s2, f1, f2, f3] &&
     decide (1 ≤ foldD [m1, m2] 0) && decide (foldD [m1, m2] 0 ≤ 12) &&
     decide (1 ≤ foldD [d1, d2] 0) && decide (foldD [d1, d2] 0 ≤ 31) &&
     decide (foldD [h1, h2] 0 ≤ 23) && decide (foldD [i1, i2] 0 ≤ 59) &&
     decide (foldD [s1, s2] 0 ≤ 59)
   | _ => false)

/-- An ISO-8601 UTC timestamp: a 4-digit year (or a sign and a 6-digit
expanded year), then the dashed date, `T`, the colon-separated time,
milliseconds and `Z`. -/
def isIso8601 (s : String) : Bool :=
  match s.data with
  | '+' :: rest => isIso8601Core (rest.take 6) (rest.drop 6)
  | '-' :: rest => isIso8601Core (rest.take 6) (rest.drop 6)
  | cs => isIso8601Core (cs.take 4) (cs.drop 4)

/-! ## The CreateEvent screen (src/unnamed/part_000) -/

/-- The event record (src/types/Event.ts); the nested `position` object is
flattened to its two coordinates. -/
structure Event where
  id : String
  name : String
  description : String
  dateTime : String
  organizerId : String
  latitude : JsNum
  longitude : JsNum
  imageUrl : Option String
  volunteersNeeded : JsNum
  volunteersIds : List String
deriving DecidableEq

/-- The form fields of the CreateEvent screen. -/
structure FormState where
  name : String
  description : String
  date : String
  time : String
  volunteersNeeded : String
  lat : String
  lng : String
  imageRemoteUrl : Option String

/-- Embeds the `isoDateTime` memo (src/unnamed/part_000, lines 37-44).
`jsParseDate` abstracts the engine's `new Date(string)` parser (the
timestamp, or `none` for an Invalid Date); `tz` is the constant local-time
offset in milliseconds added to UTC (`setHours` works in local wall-clock
time).  `none` models the memo throwing — `toISOString` on an Invalid
Date — which crashes the render so nothing can be saved; `some ""` is the
empty-input case. -/
def isoDateTime (jsParseDate : String → Option Int) (tz : Int)
    (date time : String) : Option String :=
  if date = "" then some ""
  else if time = "" then some ""
  else
    match jsParseDate date with
    | none => none
    | some ts0 =>
      let parts := (splitOnColon time.data).map String.mk
      let h := jsOrZero (jsNumber (parts.headD ""))
      let m := jsOrZero (match parts[1]? with
        | some p => jsNumber p
        | none => .nan)
      match h, m with
      | .fin hm he, .fin mm me =>
        let localDay := (ts0 + tz) / 86400000
        let ts := 86400000 * localDay + jsTruncate hm he * 3600000 +
          jsTruncate mm me * 60000 - tz
        if ts.natAbs ≤ maxTimeMs then some (toISOString ts) else none
      | _, _ => none

/-- Embeds `canSave` (src/unnamed/part_000, lines 51-61), with `iso` the
current value of the `isoDateTime` memo. -/
def canSave (iso : String) (fs : FormState) : Bool :=
  (jsTrim fs.name != "") && (jsTrim fs.description != "") && (iso != "") &&
  (match numericVolunteers fs.volunteersNeeded with
   | .fin m _ => decide (0 < m)
   | _ => false) &&
  (fs.lat != "") && (fs.lng != "") &&
  (match fs.imageRemoteUrl with
   | some u => u != ""
   | none => false)

/-- Embeds `handleSave` (src/unnamed/part_000, lines 159-192): the event
record submitted to `createEvent`, or `none` when the validation guard
alerts and returns — or when the `isoDateTime` memo throws during render,
so the screen cannot save at all.  `newId` is the fresh `uuidv4()` and
`authUserId` the authentication context's user id. -/
def handleSave (jsParseDate : String → Option Int) (tz : Int) (newId : String)
    (authUserId : Option String) (fs : FormState) : Option Event :=
  match isoDateTime jsParseDate tz fs.date fs.time with
  | none => none
  | some iso =>
    if canSave iso fs then
      some { id := newId, name := jsTrim fs.name,
             description := jsTrim fs.description,
             dateTime := iso, organizerId := authUserId.getD "unknown",
             latitude := jsNumber fs.lat, longitude := jsNumber fs.lng,
             imageUrl := fs.imageRemoteUrl,
             volunteersNeeded := numericVolunteers fs.volunteersNeeded,
             volunteersIds := [] }
    else none

/-- A concrete cached payload used in concrete instances: one event record
in wire form. -/
def sampleEvents : Json :=
  Json.jarr [Json.jobj [("id", Json.jstr "1"), ("name", Json.jstr "Beach Cleanup"),
    ("dateTime", Json.jstr "2025-12-01T14:30:00.000Z"),
    ("position", Json.jobj [("latitude", Json.jnum 510447 4),
      ("longitude", Json.jnum (-1140719) 4)]),
    ("volunteersNeeded", Json.jnum 4 0), ("volunteersIds", Json.jarr [])]]

/-- A store holding `sampleEvents` under the loader's key. -/
def sampleStore : Store :=
  setStore emptyStore "events_future" (jserialize sampleEvents)

/-- A date parser for concrete instances: it knows one date. -/
def sampleParse : String → Option Int :=
  fun s => if s = "2025-12-01" then some 1764547200000 else none

/-- A filled-in creation form for concrete instances. -/
def sampleForm : FormState :=
  { name := " Beach Cleanup ", description := "Help clean the beach",
    date := "2025-12-01", time := "14:30", volunteersNeeded := "4",
    lat := "51.0447", lng := "-114.0719", imageRemoteUrl := some "http" }

/-! # Theorems

First the round-trip of the serializer and reader, then the claims about
the loader, the call site, logout and the creation flow. -/

/-! ## Digit runs -/

theorem toNat_digitChar {n : Nat} (h : n < 10) : (digitChar n).toNat = 48 + n := by
  unfold digitChar
  interval_cases n <;> decide

theorem isDig_digitChar {n : Nat} (h : n < 10) : isDig (digitChar n) = true := by
  unfold isDig
  rw [toNat_digitChar h]
  simp
  omega

theorem digVal_digitChar {n : Nat} (h : n < 10) : digVal (digitChar n) = n := by
  unfold digVal
  rw [toNat_digitChar h]
  omega

theorem natCharsAux_extra : ∀ f1 f2 n : Nat, n < f1 → n < f2 →
    natCharsAux f1 n = natCharsAux f2 n := by
  intro f1
  induction f1 using Nat.strong_induction_on with
  | _ f1 ih =>
    intro f2 n h1 h2
    match f1, f2 with
    | g1 + 1, g2 + 1 =>
      show natCharsAux (g1 + 1) n = natCharsAux (g2 + 1) n
      unfold natCharsAux
      by_cases hn : n < 10
      · simp [hn]
      · simp only [hn, if_false]
        rw [ih g1 (by omega) g2 (n / 10) (by omega) (by omega)]

theorem natChars_eq (n : Nat) : natChars n =
    if n < 10 then [digitChar n]
    else natChars (n / 10) ++ [digitChar (n % 10)] := by
  show natCharsAux (n + 1) n = _
  rw [natCharsAux]
  by_cases hn : n < 10
  · simp [hn]
  · simp only [hn, if_false]
    rw [natCharsAux_extra n (n / 10 + 1) (n / 10) (by omega) (by omega)]
    rfl

theorem natChars_cons (n : Nat) : ∃ d ds, natChars n = d :: ds ∧ isDig d = true := by
  induction n using Nat.strong_induction_on with
  | _ n ih =>
    rw [natChars_eq]
    by_cases hn : n < 10
    · exact ⟨digitChar n, [], by simp [hn], isDig_digitChar hn⟩
    · obtain ⟨d, ds, hds, hd⟩ := ih (n / 10) (by omega)
      exact ⟨d, ds ++ [digitChar (n % 10)], by simp [hn, hds], hd⟩

theorem natChars_ne_nil (n : Nat) : natChars n ≠ [] := by
  obtain ⟨d, ds, hds, _⟩ := natChars_cons n
  simp [hds]

theorem allDig_natChars (n : Nat) : allDig (natChars n) = true := by
  induction n using Nat.strong_induction_on with
  | _ n ih =>
    rw [natChars_eq]
    by_cases hn : n < 10
    · simp [hn, allDig, isDig_digitChar hn]
    · have h10 : n % 10 < 10 := Nat.mod_lt _ (by omega)
      have := ih (n / 10) (by omega)
      simp only [hn, if_false]
      simp [allDig] at this ⊢
      exact ⟨this, isDig_digitChar h10⟩

theorem length_natChars_le {n k : Nat} (hk : 1 ≤ k) (h : n < 10 ^ k) :
    (natChars n).length ≤ k := by
  induction n using Nat.strong_induction_on generalizing k with
  | _ n ih =>
    rw [natChars_eq]
    by_cases hn : n < 10
    · simp only [hn, if_true]
      simpa using hk
    · have hk2 : 2 ≤ k := by
        by_contra hcon
        have : k = 1 := by omega
        subst this
        simp at h
        omega
      have hdiv : n / 10 < 10 ^ (k - 1) := by
        have : 10 ^ k = 10 ^ (k - 1) * 10 := by
          have : k - 1 + 1 = k := by omega
          calc 10 ^ k = 10 ^ (k - 1 + 1) := by rw [this]
          _ = 10 ^ (k - 1) * 10 := by rw [pow_succ]
        omega
      have := ih (n / 10) (by omega) (k := k - 1) (by omega) hdiv
      simp only [hn, if_false, List.length_append, List.length_cons,
        List.length_nil]
      omega

theorem foldD_append (ds1 ds2 : List Char) (acc : Nat) :
    foldD (ds1 ++ ds2) acc = foldD ds2 (foldD ds1 acc) := by
  induction ds1 generalizing acc with
  | nil => rfl
  | cons c cs ih => simp [foldD, ih]

theorem foldD_natChars0 (n : Nat) : foldD (natChars n) 0 = n := by
  induction n using Nat.strong_induction_on with
  | _ n ih =>
    by_cases hn : n < 10
    · rw [natChars_eq]
      simp [hn, foldD, digVal_digitChar hn]
    · have h10 : n % 10 < 10 := Nat.mod_lt _ (by omega)
      rw [natChars_eq]
      simp only [hn, if_false]
      rw [foldD_append, ih (n / 10) (by omega)]
      simp [foldD, digVal_digitChar h10]
      omega

theorem foldD_replicate_zero (k acc : Nat) :
    foldD (List.replicate k '0') acc = acc * 10 ^ k := by
  induction k generalizing acc with
  | zero => simp [foldD]
  | succ k ih =>
    rw [List.replicate_succ]
    show foldD (List.replicate k '0') (acc * 10 + digVal '0') = _
    rw [ih]
    have : digVal '0' = 0 := by decide
    rw [this]
    ring

theorem allDig_padZeros {k : Nat} {ds : List Char} (h : allDig ds = true) :
    allDig (padZeros k ds) = true := by
  unfold padZeros
  unfold allDig at h ⊢
  rw [List.all_append]
  simp only [h, Bool.and_true]
  rw [List.all_eq_true]
  intro c hc
  rw [List.eq_of_mem_replicate hc]
  decide

theorem length_padZeros {k : Nat} {ds : List Char} (h : ds.length ≤ k) :
    (padZeros k ds).length = k := by
  unfold padZeros
  simp [List.length_append]
  omega

theorem foldD_padZeros (k : Nat) (ds : List Char) :
    foldD (padZeros k ds) 0 = foldD ds 0 := by
  unfold padZeros
  rw [foldD_append, foldD_replicate_zero]
  simp

theorem readNat_digits {ds rest : List Char} (acc : Nat) (hd : allDig ds = true)
    (hb : noDigStart rest = true) :
    readNat (ds ++ rest) acc = (foldD ds acc, ds.length, rest) := by
  induction ds generalizing acc with
  | nil =>
    match rest with
    | [] => rfl
    | c :: cs =>
      simp only [noDigStart, Bool.not_eq_true'] at hb
      simp [readNat, hb, foldD]
  | cons d ds ih =>
    simp only [allDig, List.all_cons, Bool.and_eq_true] at hd
    have hall : allDig ds = true := by simp [allDig, hd.2]
    simp only [List.cons_append, readNat, hd.1, if_true, List.append_eq]
    rw [ih _ hall]
    simp [foldD]

/-! ## Heads of serialized forms -/

theorem isDig_ne {c : Char} (h : isDig c = true) :
    c ≠ 'n' ∧ c ≠ 't' ∧ c ≠ 'f' ∧ c ≠ qchar ∧ c ≠ '[' ∧ c ≠ lbrace ∧
    c ≠ ']' ∧ c ≠ rbrace ∧ c ≠ ',' ∧ c ≠ ':' ∧ c ≠ '.' ∧ c ≠ '-' := by
  have h48 : 48 ≤ c.toNat ∧ c.toNat ≤ 57 := by
    unfold isDig at h
    simpa using h
  refine ⟨?_, ?_, ?_, ?_, ?_, ?_, ?_, ?_, ?_, ?_, ?_, ?_⟩ <;>
    (rintro rfl; revert h48; decide)

theorem noDigStart_of_numBoundary {r : List Char} (h : numBoundary r = true) :
    noDigStart r = true := by
  cases r with
  | nil => rfl
  | cons c cs =>
    simp only [numBoundary, Bool.and_eq_true] at h
    simp [noDigStart, h.1]

theorem numBoundary_notDot {c : Char} {cs : List Char}
    (h : numBoundary (c :: cs) = true) : c ≠ '.' := by
  simp only [numBoundary, Bool.and_eq_true, Bool.not_eq_true', decide_eq_false_iff_not] at h
  exact h.2

/-! ## Round-trip for numbers -/

theorem pNumBody_pre (sign : Bool) (a f : Nat) (rest : List Char)
    (hb : numBoundary rest = true) :
    pNumBody sign ((natChars (a / 10 ^ f) ++
      (if f = 0 then [] else '.' :: padZeros f (natChars (a % 10 ^ f)))) ++ rest) =
    some ((mkInt sign a, f), rest) := by
  have hnds : noDigStart rest = true := noDigStart_of_numBoundary hb
  obtain ⟨d0, ds0, hncons, hd0⟩ := natChars_cons (a / 10 ^ f)
  by_cases hf : f = 0
  · subst hf
    rw [pow_zero, Nat.div_one] at hncons
    simp only [if_true, List.append_nil, pow_zero, Nat.div_one]
    have hread : readNat (natChars a ++ rest) 0 = (a, (natChars a).length, rest) := by
      rw [readNat_digits 0 (allDig_natChars a) hnds, foldD_natChars0]
    rw [hncons] at hread ⊢
    simp only [List.cons_append] at hread ⊢
    simp only [pNumBody]
    rw [if_pos hd0, hread]
    cases rest with
    | nil => rfl
    | cons c cs =>
      have hdot : c ≠ '.' := numBoundary_notDot hb
      split
      · rename_i heq
        simp only [Prod.mk.injEq, List.cons.injEq] at heq
        exact absurd heq.2.2.1 hdot
      · rename_i heq
        simp only [Prod.mk.injEq] at heq
        rw [← heq.1, ← heq.2.2]
  · simp only [hf, if_false]
    set ip := a / 10 ^ f with hip
    set fp := a % 10 ^ f with hfp
    set pad := padZeros f (natChars fp) with hpad
    have hfp10 : fp < 10 ^ f := Nat.mod_lt _ (Nat.pos_pow_of_pos f (by omega))
    have hlenf : (natChars fp).length ≤ f :=
      length_natChars_le (by omega) hfp10
    have hlenpad : pad.length = f := length_padZeros hlenf
    have halpad : allDig pad = true := allDig_padZeros (allDig_natChars fp)
    have hfoldpad : foldD pad 0 = fp := by
      rw [hpad, foldD_padZeros, foldD_natChars0]
    have hdotb : noDigStart ('.' :: (pad ++ rest)) = true := by
      simp [noDigStart]
      decide
    have hread : readNat ((natChars ip ++ ('.' :: (pad ++ rest)))) 0 =
        (ip, (natChars ip).length, '.' :: (pad ++ rest)) := by
      rw [readNat_digits 0 (allDig_natChars ip) hdotb, foldD_natChars0]
    have hread2 : readNat (pad ++ rest) 0 = (fp, f, rest) := by
      rw [readNat_digits 0 halpad hnds, hfoldpad, hlenpad]
    obtain ⟨d1, ds1, hpcons, hd1⟩ : ∃ d ds, pad = d :: ds ∧ isDig d = true := by
      cases hp : pad with
      | nil => rw [hp] at hlenpad; simp at hlenpad; omega
      | cons d ds =>
        refine ⟨d, ds, rfl, ?_⟩
        rw [hp] at halpad
        simp only [allDig, List.all_cons, Bool.and_eq_true] at halpad
        exact halpad.1
    have hassoc : (natChars ip ++ ('.' :: pad)) ++ rest =
        natChars ip ++ ('.' :: (pad ++ rest)) := by
      simp [List.append_assoc]
    rw [hassoc]
    rw [hncons] at hread ⊢
    simp only [List.cons_append] at hread ⊢
    simp only [pNumBody]
    rw [if_pos hd0, hread]
    rw [hpcons, List.cons_append] at hread2 ⊢
    split
    · rename_i heq
      simp only [Prod.mk.injEq, List.cons.injEq, true_and] at heq
      obtain ⟨h1, _, h3⟩ := heq
      rw [← h1, ← h3]
      dsimp only
      rw [if_pos hd1, hread2]
      have hval : ip * 10 ^ f + fp = a := by
        rw [hip, hfp, Nat.mul_comm]
        exact Nat.div_add_mod a (10 ^ f)
      rw [hval]
    · rename_i hno heq
      simp only [Prod.mk.injEq] at heq
      exact (hno _ heq.2.2.symm).elim

theorem pNum_serNum (m : Int) (f : Nat) (rest : List Char)
    (hb : numBoundary rest = true) :
    pNum (serNum m f ++ rest) = some ((m, f), rest) := by
  have hone : serNum m f = (if m < 0 then ['-'] else []) ++
      (natChars (m.natAbs / 10 ^ f) ++
        (if f = 0 then [] else '.' :: padZeros f (natChars (m.natAbs % 10 ^ f)))) := by
    simp only [serNum]
    simp [List.append_assoc]
  rw [hone]
  by_cases hm : m < 0
  · simp only [hm, if_true, List.cons_append, List.nil_append]
    simp only [pNum]
    rw [if_true]
    have := pNumBody_pre true m.natAbs f rest hb
    rw [List.append_assoc] at this ⊢
    rw [this]
    have hmk : mkInt true m.natAbs = m := by
      unfold mkInt
      simp only [if_true]
      omega
    rw [hmk]
  · simp only [hm, if_false, List.nil_append]
    obtain ⟨d0, ds0, hncons, hd0⟩ := natChars_cons (m.natAbs / 10 ^ f)
    obtain ⟨_, _, _, _, _, _, _, _, _, _, _, hdash⟩ := isDig_ne hd0
    have hshape : natChars (m.natAbs / 10 ^ f) ++
        ((if f = 0 then [] else '.' :: padZeros f (natChars (m.natAbs % 10 ^ f))) ++ rest) =
        d0 :: (ds0 ++
          ((if f = 0 then [] else '.' :: padZeros f (natChars (m.natAbs % 10 ^ f))) ++ rest)) := by
      rw [hncons]
      rfl
    rw [List.append_assoc, hshape]
    simp only [pNum]
    rw [if_neg hdash]
    rw [← hshape, ← List.append_assoc]
    rw [pNumBody_pre false m.natAbs f rest hb]
    have hmk : mkInt false m.natAbs = m := by
      unfold mkInt
      rw [if_neg (by decide)]
      omega
    rw [hmk]

/-! ## Round-trip for strings -/

theorem hexVal_hexChar {n : Nat} (h : n < 16) : hexVal (hexChar n) = some n := by
  interval_cases n <;> decide

theorem pStrBody_quote (r : List Char) : pStrBody (qchar :: r) = some ([], r) := by
  rw [pStrBody.eq_def]
  simp

theorem pStrBody_escQ (r : List Char) : pStrBody (bslash :: qchar :: r) =
    (pStrBody r).map (fun p => (qchar :: p.1, p.2)) := by
  rw [pStrBody.eq_def]
  simp +decide

theorem pStrBody_escB (r : List Char) : pStrBody (bslash :: bslash :: r) =
    (pStrBody r).map (fun p => (bslash :: p.1, p.2)) := by
  rw [pStrBody.eq_def]
  simp +decide

theorem pStrBody_escN (r : List Char) : pStrBody (bslash :: 'n' :: r) =
    (pStrBody r).map (fun p => (nlChar :: p.1, p.2)) := by
  rw [pStrBody.eq_def]
  simp +decide

theorem pStrBody_escT (r : List Char) : pStrBody (bslash :: 't' :: r) =
    (pStrBody r).map (fun p => (tabChar :: p.1, p.2)) := by
  rw [pStrBody.eq_def]
  simp +decide

theorem pStrBody_escR (r : List Char) : pStrBody (bslash :: 'r' :: r) =
    (pStrBody r).map (fun p => (crChar :: p.1, p.2)) := by
  rw [pStrBody.eq_def]
  simp +decide

theorem pStrBody_escBS (r : List Char) : pStrBody (bslash :: 'b' :: r) =
    (pStrBody r).map (fun p => (bsChar :: p.1, p.2)) := by
  rw [pStrBody.eq_def]
  simp +decide

theorem pStrBody_escF (r : List Char) : pStrBody (bslash :: 'f' :: r) =
    (pStrBody r).map (fun p => (ffChar :: p.1, p.2)) := by
  rw [pStrBody.eq_def]
  simp +decide

theorem pStrBody_escU (t : Nat) (ht : t < 32) (r : List Char) :
    pStrBody (bslash :: 'u' :: '0' :: '0' :: hexChar (t / 16) :: hexChar (t % 16) :: r) =
    (pStrBody r).map (fun p => (Char.ofNat t :: p.1, p.2)) := by
  rw [pStrBody.eq_def]
  have h1 : hexVal (hexChar (t / 16)) = some (t / 16) := hexVal_hexChar (by omega)
  have h2 : hexVal (hexChar (t % 16)) = some (t % 16) := hexVal_hexChar (by omega)
  have h0 : hexVal '0' = some 0 := by decide
  have hv : t / 16 * 16 + t % 16 = t := by omega
  simp +decide [h0, h1, h2]
  rw [hv]

theorem pStrBody_plain {c : Char} (r : List Char) (h1 : c ≠ qchar)
    (h2 : c ≠ bslash) (h3 : ¬(c.toNat < 32)) : pStrBody (c :: r) =
    (pStrBody r).map (fun p => (c :: p.1, p.2)) := by
  rw [pStrBody.eq_def]
  simp [h1, h2, h3]

theorem pStrBody_escList (s rest : List Char) :
    pStrBody (escList s ++ (qchar :: rest)) = some (s, rest) := by
  induction s with
  | nil =>
    show pStrBody (escList [] ++ (qchar :: rest)) = some ([], rest)
    rw [escList]
    rw [List.nil_append]
    exact pStrBody_quote rest
  | cons c cs ih =>
    have hx : escList (c :: cs) ++ (qchar :: rest) =
        escChar c ++ (escList cs ++ (qchar :: rest)) := by
      rw [escList]
      rw [List.append_assoc]
    rw [hx]
    unfold escChar
    by_cases h1 : c = qchar
    · subst h1
      rw [if_pos rfl]
      show pStrBody (bslash :: qchar :: (escList cs ++ (qchar :: rest))) = _
      rw [pStrBody_escQ, ih]
      rfl
    · rw [if_neg h1]
      by_cases h2 : c = bslash
      · subst h2
        rw [if_pos rfl]
        show pStrBody (bslash :: bslash :: (escList cs ++ (qchar :: rest))) = _
        rw [pStrBody_escB, ih]
        rfl
      · rw [if_neg h2]
        by_cases h3 : c = nlChar
        · subst h3
          rw [if_pos rfl]
          show pStrBody (bslash :: 'n' :: (escList cs ++ (qchar :: rest))) = _
          rw [pStrBody_escN, ih]
          rfl
        · rw [if_neg h3]
          by_cases h4 : c = tabChar
          · subst h4
            rw [if_pos rfl]
            show pStrBody (bslash :: 't' :: (escList cs ++ (qchar :: rest))) = _
            rw [pStrBody_escT, ih]
            rfl
          · rw [if_neg h4]
            by_cases h5 : c = crChar
            · subst h5
              rw [if_pos rfl]
              show pStrBody (bslash :: 'r' :: (escList cs ++ (qchar :: rest))) = _
              rw [pStrBody_escR, ih]
              rfl
            · rw [if_neg h5]
              by_cases h6 : c = bsChar
              · subst h6
                rw [if_pos rfl]
                show pStrBody (bslash :: 'b' :: (escList cs ++ (qchar :: rest))) = _
                rw [pStrBody_escBS, ih]
                rfl
              · rw [if_neg h6]
                by_cases h7 : c = ffChar
                · subst h7
                  rw [if_pos rfl]
                  show pStrBody (bslash :: 'f' :: (escList cs ++ (qchar :: rest))) = _
                  rw [pStrBody_escF, ih]
                  rfl
                · rw [if_neg h7]
                  by_cases h8 : c.toNat < 32
                  · rw [if_pos h8]
                    show pStrBody (bslash :: 'u' :: '0' :: '0' ::
                      hexChar (c.toNat / 16) :: hexChar (c.toNat % 16) ::
                      (escList cs ++ (qchar :: rest))) = _
                    rw [pStrBody_escU c.toNat h8, ih]
                    simp [Char.ofNat_toNat]
                  · rw [if_neg h8]
                    show pStrBody (c :: (escList cs ++ (qchar :: rest))) = _
                    rw [pStrBody_plain _ h1 h2 h8, ih]
                    rfl

/-! ## How `pVal` dispatches on the first character -/

theorem pVal_cons (g : Nat) (c : Char) (rest : List Char) :
    pVal (g + 1) (c :: rest) =
      (if c = 'n' then
        match rest with
        | 'u' :: 'l' :: 'l' :: r => some (.jnull, r)
        | _ => none
      else if c = 't' then
        match rest with
        | 'r' :: 'u' :: 'e' :: r => some (.jbool true, r)
        | _ => none
      else if c = 'f' then
        match rest with
        | 'a' :: 'l' :: 's' :: 'e' :: r => some (.jbool false, r)
        | _ => none
      else if c = qchar then
        (pStrBody rest).map (fun p => (.jstr (String.mk p.1), p.2))
      else if c = '[' then
        match rest with
        | ']' :: r => some (.jarr [], r)
        | _ => (pVal g rest).bind (fun p => pMore g p.2 [p.1])
      else if c = lbrace then
        match rest with
        | [] => none
        | r1 :: r =>
          if r1 = rbrace then some (.jobj [], r)
          else (pOneField g (r1 :: r)).bind (fun p => pFMore g p.2 [p.1])
      else
        (pNum (c :: rest)).map (fun p => (.jnum p.1.1 p.1.2, p.2))) := rfl

theorem pVal_null (g : Nat) (r : List Char) :
    pVal (g + 1) ('n' :: 'u' :: 'l' :: 'l' :: r) = some (.jnull, r) := rfl

theorem pVal_true (g : Nat) (r : List Char) :
    pVal (g + 1) ('t' :: 'r' :: 'u' :: 'e' :: r) = some (.jbool true, r) := rfl

theorem pVal_false (g : Nat) (r : List Char) :
    pVal (g + 1) ('f' :: 'a' :: 'l' :: 's' :: 'e' :: r) = some (.jbool false, r) := rfl

theorem pVal_quote (g : Nat) (cs : List Char) :
    pVal (g + 1) (qchar :: cs) =
      (pStrBody cs).map (fun p => (Json.jstr (String.mk p.1), p.2)) := rfl

theorem pVal_arrNil (g : Nat) (r : List Char) :
    pVal (g + 1) ('[' :: ']' :: r) = some (.jarr [], r) := rfl

theorem pVal_objNil (g : Nat) (r : List Char) :
    pVal (g + 1) (lbrace :: rbrace :: r) = some (.jobj [], r) := rfl

theorem pVal_arrCons (g : Nat) {c : Char} (cs : List Char) (h : c ≠ ']') :
    pVal (g + 1) ('[' :: c :: cs) =
      (pVal g (c :: cs)).bind (fun p => pMore g p.2 [p.1]) := by
  rw [pVal_cons]
  rw [if_neg (by decide), if_neg (by decide), if_neg (by decide),
    if_neg (by decide), if_pos rfl]
  split
  · rename_i heq
    simp only [List.cons.injEq] at heq
    exact absurd heq.1 h
  · rfl

theorem pVal_objCons (g : Nat) {c : Char} (cs : List Char) (h : c ≠ rbrace) :
    pVal (g + 1) (lbrace :: c :: cs) =
      (pOneField g (c :: cs)).bind (fun p => pFMore g p.2 [p.1]) := by
  rw [pVal_cons]
  rw [if_neg (by decide), if_neg (by decide), if_neg (by decide),
    if_neg (by decide), if_neg (by decide), if_pos rfl]
  dsimp only
  rw [if_neg h]

theorem pVal_digit (g : Nat) {c : Char} (cs : List Char)
    (h : isDig c = true ∨ c = '-') :
    pVal (g + 1) (c :: cs) =
      (pNum (c :: cs)).map (fun p => (Json.jnum p.1.1 p.1.2, p.2)) := by
  rw [pVal_cons]
  obtain hd | hdash := h
  · obtain ⟨hn, ht, hf, hq, hbr, hlb, _, _, _, _, _, _⟩ := isDig_ne hd
    rw [if_neg hn, if_neg ht, if_neg hf, if_neg hq, if_neg hbr, if_neg hlb]
  · subst hdash
    rw [if_neg (by decide), if_neg (by decide), if_neg (by decide),
      if_neg (by decide), if_neg (by decide), if_neg (by decide)]

theorem pMore_rbrack (g : Nat) (r : List Char) (acc : List Json) :
    pMore (g + 1) (']' :: r) acc = some (.jarr acc, r) := rfl

theorem pMore_comma (g : Nat) (r : List Char) (acc : List Json) :
    pMore (g + 1) (',' :: r) acc =
      (pVal g r).bind (fun p => pMore g p.2 (acc ++ [p.1])) := rfl

theorem pFMore_rbrace (g : Nat) (r : List Char) (acc : List (String × Json)) :
    pFMore (g + 1) (rbrace :: r) acc = some (.jobj acc, r) := rfl

theorem pFMore_comma (g : Nat) (r : List Char) (acc : List (String × Json)) :
    pFMore (g + 1) (',' :: r) acc =
      (pOneField g r).bind (fun p => pFMore g p.2 (acc ++ [p.1])) := rfl

theorem pOneField_quote (g : Nat) (rest : List Char) :
    pOneField (g + 1) (qchar :: rest) =
      (pStrBody rest).bind (fun q =>
        match q.2 with
        | ':' :: r2 => (pVal g r2).map (fun p => ((String.mk q.1, p.1), p.2))
        | _ => none) := rfl

/-! ## Shapes of serialized values -/

theorem stringMk_data (s : String) : String.mk s.data = s := rfl

theorem serNum_cons (m : Int) (f : Nat) :
    ∃ c t, serNum m f = c :: t ∧ (isDig c = true ∨ c = '-') := by
  obtain ⟨d0, ds0, hncons, hd0⟩ := natChars_cons (m.natAbs / 10 ^ f)
  by_cases hm : m < 0
  · refine ⟨'-', natChars (m.natAbs / 10 ^ f) ++
      (if f = 0 then [] else '.' :: padZeros f (natChars (m.natAbs % 10 ^ f))), ?_, Or.inr rfl⟩
    simp only [serNum, hm, if_true]
    rfl
  · refine ⟨d0, ds0 ++
      (if f = 0 then [] else '.' :: padZeros f (natChars (m.natAbs % 10 ^ f))), ?_, Or.inl hd0⟩
    simp only [serNum, hm, if_false]
    rw [hncons]
    rfl

theorem serChars_cons (v : Json) :
    ∃ c t, serChars v = c :: t ∧ c ≠ ']' ∧ c ≠ rbrace := by
  cases v with
  | jnull =>
    refine ⟨'n', ['u', 'l', 'l'], ?_, by decide, by decide⟩
    simp [serChars]
  | jbool b =>
    cases b with
    | true =>
      refine ⟨'t', ['r', 'u', 'e'], ?_, by decide, by decide⟩
      simp [serChars]
    | false =>
      refine ⟨'f', ['a', 'l', 's', 'e'], ?_, by decide, by decide⟩
      simp [serChars]
  | jnum m f =>
    obtain ⟨c, t, hct, hc⟩ := serNum_cons m f
    refine ⟨c, t, by simp [serChars, hct], ?_, ?_⟩
    · obtain hd | rfl := hc
      · exact (isDig_ne hd).2.2.2.2.2.2.1
      · decide
    · obtain hd | rfl := hc
      · exact (isDig_ne hd).2.2.2.2.2.2.2.1
      · decide
  | jstr s =>
    refine ⟨qchar, escList s.data ++ [qchar], ?_, by decide, by decide⟩
    simp [serChars, serStrChars]
  | jarr xs =>
    cases xs with
    | nil =>
      refine ⟨'[', [']'], ?_, by decide, by decide⟩
      simp [serChars]
    | cons x t =>
      refine ⟨'[', (serChars x ++ serItems t) ++ [']'], ?_, by decide, by decide⟩
      simp [serChars]
  | jobj fs =>
    cases fs with
    | nil =>
      refine ⟨lbrace, [rbrace], ?_, by decide, by decide⟩
      simp [serChars]
    | cons kv t =>
      refine ⟨lbrace, (serKV kv ++ serFTail t) ++ [rbrace], ?_, by decide, by decide⟩
      simp [serChars]

theorem serChars_ne_nil (v : Json) : serChars v ≠ [] := by
  obtain ⟨c, t, hct, _, _⟩ := serChars_cons v
  simp [hct]

theorem serKV_shape (k : String) (v : Json) :
    serKV (k, v) = qchar :: ((escList k.data ++ [qchar]) ++ (':' :: serChars v)) := by
  simp [serKV, serStrChars]

theorem numBoundary_serItems (xs : List Json) (rest : List Char) :
    numBoundary (serItems xs ++ (']' :: rest)) = true := by
  cases xs with
  | nil =>
    simp [serItems, numBoundary]
    decide
  | cons x t =>
    simp [serItems, numBoundary]
    decide

theorem numBoundary_serFTail (fs : List (String × Json)) (rest : List Char) :
    numBoundary (serFTail fs ++ (rbrace :: rest)) = true := by
  cases fs with
  | nil =>
    simp [serFTail, numBoundary]
    decide
  | cons kv t =>
    simp [serFTail, numBoundary]
    decide

/-! ## The round-trip of the serializer and reader -/

theorem roundAux : ∀ fuel : Nat,
    (∀ v rest, (serChars v).length ≤ fuel → numBoundary rest = true →
       pVal fuel (serChars v ++ rest) = some (v, rest)) ∧
    (∀ xs acc rest, (serItems xs).length + 1 ≤ fuel →
       pMore fuel (serItems xs ++ (']' :: rest)) acc = some (.jarr (acc ++ xs), rest)) ∧
    (∀ fs acc rest, (serFTail fs).length + 1 ≤ fuel →
       pFMore fuel (serFTail fs ++ (rbrace :: rest)) acc = some (.jobj (acc ++ fs), rest)) ∧
    (∀ k v rest, (serKV (k, v)).length ≤ fuel → numBoundary rest = true →
       pOneField fuel (serKV (k, v) ++ rest) = some ((k, v), rest)) := by
  intro fuel
  induction fuel with
  | zero =>
    refine ⟨?_, ?_, ?_, ?_⟩
    · intro v rest hlen _
      obtain ⟨c, t, hct, _, _⟩ := serChars_cons v
      rw [hct] at hlen
      simp at hlen
    · intro xs acc rest hlen
      omega
    · intro fs acc rest hlen
      omega
    · intro k v rest hlen _
      rw [serKV_shape] at hlen
      simp at hlen
  | succ g ih =>
    obtain ⟨ih1, ih2, ih3, ih4⟩ := ih
    refine ⟨?_, ?_, ?_, ?_⟩
    · intro v rest hlen hb
      cases v with
      | jnull =>
        have he : serChars Json.jnull = ['n', 'u', 'l', 'l'] := by simp [serChars]
        rw [he]
        simp only [List.cons_append, List.nil_append]
        exact pVal_null g rest
      | jbool b =>
        cases b with
        | true =>
          have he : serChars (Json.jbool true) = ['t', 'r', 'u', 'e'] := by simp [serChars]
          rw [he]
          simp only [List.cons_append, List.nil_append]
          exact pVal_true g rest
        | false =>
          have he : serChars (Json.jbool false) = ['f', 'a', 'l', 's', 'e'] := by
            simp [serChars]
          rw [he]
          simp only [List.cons_append, List.nil_append]
          exact pVal_false g rest
      | jnum m f =>
        obtain ⟨c, t, hct, hc⟩ := serNum_cons m f
        have he : serChars (Json.jnum m f) = serNum m f := by simp [serChars]
        rw [he, hct, List.cons_append, pVal_digit g _ hc, ← List.cons_append, ← hct,
          pNum_serNum m f rest hb]
        rfl
      | jstr s =>
        have he : serChars (Json.jstr s) = qchar :: (escList s.data ++ [qchar]) := by
          simp [serChars, serStrChars]
        rw [he, List.cons_append, pVal_quote]
        have hx : (escList s.data ++ [qchar]) ++ rest =
            escList s.data ++ (qchar :: rest) := by
          simp [List.append_assoc]
        rw [hx, pStrBody_escList]
        simp [stringMk_data]
      | jarr xs =>
        cases xs with
        | nil =>
          have he : serChars (Json.jarr []) = ['[', ']'] := by simp [serChars]
          rw [he]
          simp only [List.cons_append, List.nil_append]
          exact pVal_arrNil g rest
        | cons x xs =>
          have he : serChars (Json.jarr (x :: xs)) =
              '[' :: ((serChars x ++ serItems xs) ++ [']']) := by
            simp [serChars]
          have hx1 : 1 ≤ (serChars x).length := by
            cases hsx : serChars x with
            | nil => exact absurd hsx (serChars_ne_nil x)
            | cons a b => simp
          have hlx : (serChars x).length ≤ g ∧ (serItems xs).length + 1 ≤ g := by
            rw [he] at hlen
            simp [List.length_append] at hlen
            omega
          obtain ⟨c, t, hct, hne, _⟩ := serChars_cons x
          have harr : serChars (Json.jarr (x :: xs)) ++ rest =
              '[' :: (c :: (t ++ (serItems xs ++ (']' :: rest)))) := by
            rw [he, hct]
            simp [List.append_assoc]
          rw [harr, pVal_arrCons g _ hne]
          have hback : c :: (t ++ (serItems xs ++ (']' :: rest))) =
              serChars x ++ (serItems xs ++ (']' :: rest)) := by
            rw [hct]
            rfl
          rw [hback, ih1 x _ hlx.1 (numBoundary_serItems xs rest)]
          show pMore g (serItems xs ++ (']' :: rest)) [x] = _
          rw [ih2 xs [x] rest hlx.2]
          simp
      | jobj fs =>
        cases fs with
        | nil =>
          have he : serChars (Json.jobj []) = [lbrace, rbrace] := by simp [serChars]
          rw [he]
          simp only [List.cons_append, List.nil_append]
          exact pVal_objNil g rest
        | cons kv t =>
          obtain ⟨k, v2⟩ := kv
          have he : serChars (Json.jobj ((k, v2) :: t)) =
              lbrace :: ((serKV (k, v2) ++ serFTail t) ++ [rbrace]) := by
            simp [serChars]
          have hk1 : 1 ≤ (serKV (k, v2)).length := by
            rw [serKV_shape]
            simp
          have hl : (serKV (k, v2)).length ≤ g ∧ (serFTail t).length + 1 ≤ g := by
            rw [he] at hlen
            simp [List.length_append] at hlen
            omega
          have hobj : serChars (Json.jobj ((k, v2) :: t)) ++ rest =
              lbrace :: (qchar :: (((escList k.data ++ [qchar]) ++ (':' :: serChars v2)) ++
                (serFTail t ++ (rbrace :: rest)))) := by
            rw [he, serKV_shape]
            simp [List.append_assoc]
          rw [hobj, pVal_objCons g _ (by decide : qchar ≠ rbrace)]
          have hback : qchar :: (((escList k.data ++ [qchar]) ++ (':' :: serChars v2)) ++
              (serFTail t ++ (rbrace :: rest))) =
              serKV (k, v2) ++ (serFTail t ++ (rbrace :: rest)) := by
            rw [serKV_shape]
            rfl
          rw [hback, ih4 k v2 _ hl.1 (numBoundary_serFTail t rest)]
          show pFMore g (serFTail t ++ (rbrace :: rest)) [(k, v2)] = _
          rw [ih3 t [(k, v2)] rest hl.2]
          simp
    · intro xs acc rest hlen
      cases xs with
      | nil =>
        have he : serItems ([] : List Json) = [] := by simp [serItems]
        rw [he, List.nil_append, pMore_rbrack]
        simp
      | cons x xs =>
        have he : serItems (x :: xs) = ',' :: (serChars x ++ serItems xs) := by
          simp [serItems]
        have hlx : (serChars x).length ≤ g ∧ (serItems xs).length + 1 ≤ g := by
          rw [he] at hlen
          simp [List.length_append] at hlen
          omega
        have hx : serItems (x :: xs) ++ (']' :: rest) =
            ',' :: (serChars x ++ (serItems xs ++ (']' :: rest))) := by
          rw [he]
          simp [List.append_assoc]
        rw [hx, pMore_comma, ih1 x _ hlx.1 (numBoundary_serItems xs rest)]
        show pMore g (serItems xs ++ (']' :: rest)) (acc ++ [x]) = _
        rw [ih2 xs (acc ++ [x]) rest hlx.2]
        simp
    · intro fs acc rest hlen
      cases fs with
      | nil =>
        have he : serFTail ([] : List (String × Json)) = [] := by simp [serFTail]
        rw [he, List.nil_append, pFMore_rbrace]
        simp
      | cons kv t =>
        obtain ⟨k, v⟩ := kv
        have he : serFTail ((k, v) :: t) = ',' :: (serKV (k, v) ++ serFTail t) := by
          simp [serFTail]
        have hl : (serKV (k, v)).length ≤ g ∧ (serFTail t).length + 1 ≤ g := by
          rw [he] at hlen
          simp [List.length_append] at hlen
          omega
        have hx : serFTail ((k, v) :: t) ++ (rbrace :: rest) =
            ',' :: (serKV (k, v) ++ (serFTail t ++ (rbrace :: rest))) := by
          rw [he]
          simp [List.append_assoc]
        rw [hx, pFMore_comma, ih4 k v _ hl.1 (numBoundary_serFTail t rest)]
        show pFMore g (serFTail t ++ (rbrace :: rest)) (acc ++ [(k, v)]) = _
        rw [ih3 t (acc ++ [(k, v)]) rest hl.2]
        simp
    · intro k v rest hlen hb
      have hx : serKV (k, v) ++ rest =
          qchar :: (escList k.data ++ (qchar :: (':' :: (serChars v ++ rest)))) := by
        rw [serKV_shape]
        simp [List.append_assoc]
      have hlv : (serChars v).length ≤ g := by
        rw [serKV_shape] at hlen
        simp [List.length_append] at hlen
        omega
      rw [hx, pOneField_quote, pStrBody_escList]
      show (pVal g (serChars v ++ rest)).map (fun p => ((String.mk k.data, p.1), p.2)) =
        some ((k, v), rest)
      rw [ih1 v rest hlv hb]
      simp [stringMk_data]

/-- `JSON.parse` undoes `JSON.stringify`: the round-trip of the model. -/
theorem jparse_jserialize (v : Json) : jparse (jserialize v) = some v := by
  unfold jparse jserialize
  have hdata : (String.mk (serChars v)).data = serChars v := rfl
  rw [hdata]
  have h := (roundAux ((serChars v).length + 1)).1 v [] (by omega) (by rfl)
  rw [List.append_nil] at h
  rw [h]

/-! ## `toISOString` produces ISO-8601 -/

theorem civil_bounds (days : Int) (h1 : -100000000 ≤ days) (h2 : days ≤ 100000000) :
    1 ≤ (civilFromDays days).2.1 ∧ (civilFromDays days).2.1 ≤ 12 ∧
    1 ≤ (civilFromDays days).2.2 ∧ (civilFromDays days).2.2 ≤ 31 ∧
    (civilFromDays days).1.natAbs ≤ 999999 := by
  unfold civilFromDays
  dsimp only
  split_ifs <;> omega

theorem isDig_ne_plus {c : Char} (h : isDig c = true) : c ≠ '+' := by
  have h48 : 48 ≤ c.toNat ∧ c.toNat ≤ 57 := by
    unfold isDig at h
    simpa using h
  rintro rfl
  revert h48
  decide

theorem allDig_head {c : Char} {t : List Char} (h : allDig (c :: t) = true) :
    isDig c = true := by
  simp only [allDig, List.all_cons, Bool.and_eq_true] at h
  exact h.1

theorem padPair (n : Nat) (h : n < 100) :
    ∃ a b, padZeros 2 (natChars n) = [a, b] ∧ isDig a = true ∧ isDig b = true ∧
      foldD [a, b] 0 = n := by
  have hlen : (padZeros 2 (natChars n)).length = 2 :=
    length_padZeros (length_natChars_le (by omega) (by omega))
  have hall := allDig_padZeros (k := 2) (allDig_natChars n)
  have hfold : foldD (padZeros 2 (natChars n)) 0 = n := by
    rw [foldD_padZeros, foldD_natChars0]
  cases hp : padZeros 2 (natChars n) with
  | nil => rw [hp] at hlen; simp at hlen
  | cons a t =>
    cases t with
    | nil => rw [hp] at hlen; simp at hlen
    | cons b t2 =>
      cases t2 with
      | nil =>
        rw [hp] at hall hfold
        simp only [allDig, List.all_cons, List.all_nil, Bool.and_eq_true,
          Bool.and_true] at hall
        exact ⟨a, b, rfl, hall.1, hall.2, hfold⟩
      | cons c3 t3 => rw [hp] at hlen; simp at hlen

theorem padTriple (n : Nat) (h : n < 1000) :
    ∃ a b c3, padZeros 3 (natChars n) = [a, b, c3] ∧ isDig a = true ∧
      isDig b = true ∧ isDig c3 = true ∧ foldD [a, b, c3] 0 = n := by
  have hlen : (padZeros 3 (natChars n)).length = 3 :=
    length_padZeros (length_natChars_le (by omega) (by omega))
  have hall := allDig_padZeros (k := 3) (allDig_natChars n)
  have hfold : foldD (padZeros 3 (natChars n)) 0 = n := by
    rw [foldD_padZeros, foldD_natChars0]
  cases hp : padZeros 3 (natChars n) with
  | nil => rw [hp] at hlen; simp at hlen
  | cons a t =>
    cases t with
    | nil => rw [hp] at hlen; simp at hlen
    | cons b t2 =>
      cases t2 with
      | nil => rw [hp] at hlen; simp at hlen
      | cons c3 t3 =>
        cases t3 with
        | nil =>
          rw [hp] at hall hfold
          simp only [allDig, List.all_cons, List.all_nil, Bool.and_eq_true,
            Bool.and_true] at hall
          exact ⟨a, b, c3, rfl, hall.1, hall.2.1, hall.2.2, hfold⟩
        | cons c4 t4 => rw [hp] at hlen; simp at hlen

theorem core_cons (ys : List Char)
    (m1 m2 d1 d2 h1 h2 i1 i2 s1 s2 f1 f2 f3 : Char) :
    isIso8601Core ys ('-' :: m1 :: m2 :: '-' :: d1 :: d2 :: 'T' :: h1 :: h2 ::
      ':' :: i1 :: i2 :: ':' :: s1 :: s2 :: '.' :: f1 :: f2 :: f3 :: 'Z' :: []) =
    (allDig ys &&
     (allDig [m1, m2, d1, d2, h1, h2, i1, i2, s1, s2, f1, f2, f3] &&
      decide (1 ≤ foldD [m1, m2] 0) && decide (foldD [m1, m2] 0 ≤ 12) &&
      decide (1 ≤ foldD [d1, d2] 0) && decide (foldD [d1, d2] 0 ≤ 31) &&
      decide (foldD [h1, h2] 0 ≤ 23) && decide (foldD [i1, i2] 0 ≤ 59) &&
      decide (foldD [s1, s2] 0 ≤ 59))) := rfl

theorem data_mk (l : List Char) : (String.mk l).data = l := rfl

theorem isIso8601_dash (rest : List Char) :
    isIso8601 (String.mk ('-' :: rest)) =
      isIso8601Core (rest.take 6) (rest.drop 6) := rfl

theorem isIso8601_plus (rest : List Char) :
    isIso8601 (String.mk ('+' :: rest)) =
      isIso8601Core (rest.take 6) (rest.drop 6) := rfl

theorem isIso8601_default (cs : List Char) (c0 : Char) (t : List Char)
    (hcs : cs = c0 :: t) (h1 : c0 ≠ '+') (h2 : c0 ≠ '-') :
    isIso8601 (String.mk cs) = isIso8601Core (cs.take 4) (cs.drop 4) := by
  subst hcs
  unfold isIso8601
  rw [data_mk]
  split
  · rename_i heq
    rw [List.cons.injEq] at heq
    exact absurd heq.1 h1
  · rename_i heq
    rw [List.cons.injEq] at heq
    exact absurd heq.1 h2
  · rfl

theorem isIso_build (y : Int) (mo dd hh mi ss mss : Nat)
    (hmo1 : 1 ≤ mo) (hmo2 : mo ≤ 12) (hdd1 : 1 ≤ dd) (hdd2 : dd ≤ 31)
    (hhh : hh ≤ 23) (hmi : mi ≤ 59) (hss : ss ≤ 59) (hms : mss ≤ 999)
    (hy : y.natAbs ≤ 999999) :
    isIso8601 (String.mk (
      (if 0 ≤ y ∧ y ≤ 9999 then padZeros 4 (natChars y.toNat)
       else (if y < 0 then ['-'] else ['+']) ++ padZeros 6 (natChars y.natAbs)) ++
      '-' :: padZeros 2 (natChars mo) ++ '-' :: padZeros 2 (natChars dd) ++
      'T' :: padZeros 2 (natChars hh) ++ ':' :: padZeros 2 (natChars mi) ++
      ':' :: padZeros 2 (natChars ss) ++ '.' :: padZeros 3 (natChars mss) ++
      ['Z'])) = true := by
  obtain ⟨m1, m2, hmop, hm1, hm2, hmof⟩ := padPair mo (by omega)
  obtain ⟨e1, e2, hddp, he1, he2, hddf⟩ := padPair dd (by omega)
  obtain ⟨g1, g2, hhp, hg1, hg2, hhf⟩ := padPair hh (by omega)
  obtain ⟨i1, i2, hip, hi1, hi2, hif⟩ := padPair mi (by omega)
  obtain ⟨s1, s2, hsp, hs1, hs2, hsf⟩ := padPair ss (by omega)
  obtain ⟨f1, f2, f3, hfp, hf1, hf2, hf3, hff⟩ := padTriple mss (by omega)
  rw [hmop, hddp, hhp, hip, hsp, hfp]
  have hcore : ∀ ys : List Char, allDig ys = true →
      isIso8601Core ys ('-' :: m1 :: m2 :: '-' :: e1 :: e2 :: 'T' :: g1 :: g2 ::
        ':' :: i1 :: i2 :: ':' :: s1 :: s2 :: '.' :: f1 :: f2 :: f3 ::
        'Z' :: []) = true := by
    intro ys hys
    rw [core_cons]
    simp only [allDig] at hys
    simp only [hys, allDig, List.all_cons, List.all_nil, hm1, hm2, he1, he2,
      hg1, hg2, hi1, hi2, hs1, hs2, hf1, hf2, hf3, hmof, hddf, hhf, hif, hsf,
      Bool.and_true, Bool.true_and, Bool.and_eq_true, decide_eq_true_eq]
    omega
  by_cases hyr : 0 ≤ y ∧ y ≤ 9999
  · rw [if_pos hyr]
    simp only [List.append_assoc]
    have hlen4 : (padZeros 4 (natChars y.toNat)).length = 4 :=
      length_padZeros (length_natChars_le (by omega) (by omega))
    have hall4 := allDig_padZeros (k := 4) (allDig_natChars y.toNat)
    obtain ⟨c0, t0, hc0t⟩ : ∃ c0 t0, padZeros 4 (natChars y.toNat) = c0 :: t0 := by
      cases hp : padZeros 4 (natChars y.toNat) with
      | nil => rw [hp] at hlen4; simp at hlen4
      | cons a t => exact ⟨a, t, rfl⟩
    have hy0 : isDig c0 = true := allDig_head (hc0t ▸ hall4)
    obtain ⟨_, _, _, _, _, _, _, _, _, _, _, hdash⟩ := isDig_ne hy0
    rw [isIso8601_default _ c0 _ (by rw [hc0t]; rfl) (isDig_ne_plus hy0) hdash]
    rw [List.take_left' hlen4, List.drop_left' hlen4]
    exact hcore _ hall4
  · rw [if_neg hyr]
    have hlen6 : (padZeros 6 (natChars y.natAbs)).length = 6 :=
      length_padZeros (length_natChars_le (by omega) (by omega))
    have hall6 := allDig_padZeros (k := 6) (allDig_natChars y.natAbs)
    by_cases hneg : y < 0
    · rw [if_pos hneg]
      simp only [List.append_assoc, List.singleton_append, List.cons_append, List.nil_append]
      rw [isIso8601_dash]
      rw [List.take_left' hlen6, List.drop_left' hlen6]
      exact hcore _ hall6
    · rw [if_neg hneg]
      simp only [List.append_assoc, List.singleton_append, List.cons_append, List.nil_append]
      rw [isIso8601_plus]
      rw [List.take_left' hlen6, List.drop_left' hlen6]
      exact hcore _ hall6

theorem isIso8601_toISOString (ts : Int) (h : ts.natAbs ≤ maxTimeMs) :
    isIso8601 (toISOString ts) = true := by
  have hdb1 : -100000000 ≤ ts / 86400000 := by
    unfold maxTimeMs at h
    omega
  have hdb2 : ts / 86400000 ≤ 100000000 := by
    unfold maxTimeMs at h
    omega
  obtain ⟨hmo1, hmo2, hdd1, hdd2, hy⟩ := civil_bounds _ hdb1 hdb2
  have hms : (ts % 86400000).toNat < 86400000 := by omega
  have heq : toISOString ts = String.mk (
      (if 0 ≤ (civilFromDays (ts / 86400000)).1 ∧
          (civilFromDays (ts / 86400000)).1 ≤ 9999
        then padZeros 4 (natChars (civilFromDays (ts / 86400000)).1.toNat)
        else (if (civilFromDays (ts / 86400000)).1 < 0 then ['-'] else ['+']) ++
          padZeros 6 (natChars (civilFromDays (ts / 86400000)).1.natAbs)) ++
      '-' :: padZeros 2 (natChars (civilFromDays (ts / 86400000)).2.1) ++
      '-' :: padZeros 2 (natChars (civilFromDays (ts / 86400000)).2.2) ++
      'T' :: padZeros 2 (natChars ((ts % 86400000).toNat / 3600000)) ++
      ':' :: padZeros 2 (natChars ((ts % 86400000).toNat / 60000 % 60)) ++
      ':' :: padZeros 2 (natChars ((ts % 86400000).toNat / 1000 % 60)) ++
      '.' :: padZeros 3 (natChars ((ts % 86400000).toNat % 1000)) ++
      ['Z']) := rfl
  rw [heq]
  exact isIso_build _ _ _ _ _ _ _ hmo1 hmo2 hdd1 hdd2 (by omega) (by omega)
    (by omega) (by omega) hy

/-! ## The claims -/

/-- C1: for every key and every failing network operation, if a value was
previously persisted under that key, the loader returns the deserialized
cached value as an ordinary success — no exception — and signals the
staleness of the result through the notice side channel. -/
theorem c1_offline_fallback (key e : String) (v : Json) (store : Store)
    (setOk : Bool) (hcached : store key = some (jserialize v)) :
    (getFromNetworkFirst key (fun _ => Except.error e) setOk store).result =
      Except.ok v ∧
    (getFromNetworkFirst key (fun _ => Except.error e) setOk store).notice =
      some Notice.staleDataServed := by
  constructor <;> simp [getFromNetworkFirst, hcached, jparse_jserialize]

/-- Witness for C1: a concrete store holding one serialized event list and
a rejecting fetch. -/
theorem c1_offline_fallback_witness :
    sampleStore "events_future" = some (jserialize sampleEvents) ∧
    (getFromNetworkFirst "events_future" (fun _ => Except.error "network down")
      true sampleStore).result = Except.ok sampleEvents ∧
    (getFromNetworkFirst "events_future" (fun _ => Except.error "network down")
      true sampleStore).notice = some Notice.staleDataServed := by
  have h : sampleStore "events_future" = some (jserialize sampleEvents) := rfl
  exact ⟨h, (c1_offline_fallback "events_future" "network down" sampleEvents
      sampleStore true h).1,
    (c1_offline_fallback "events_future" "network down" sampleEvents
      sampleStore true h).2⟩

/-- C2: with nothing cached under the key, a failing load is the
`Unavailable` hard failure wrapping the original network error — and a
hard failure happens exactly when the fetch failed and the lookup missed
(on stores whose entry for the key, if any, deserializes — the invariant
the loader itself maintains). -/
theorem c2_unavailable_on_miss (key : String) (store : Store) (setOk : Bool)
    (hwf : wellFormedAt store key) :
    (∀ e, store key = none →
      (getFromNetworkFirst key (fun _ => Except.error e) setOk store).result =
        Except.error (LoadError.unavailable e)) ∧
    (∀ f, exceptIsError (getFromNetworkFirst key f setOk store).result = true ↔
      (exceptIsError (f ()) = true ∧ store key = none)) := by
  constructor
  · intro e hmiss
    simp [getFromNetworkFirst, hmiss]
  · intro f
    cases hf : f () with
    | ok v => simp [getFromNetworkFirst, hf, exceptIsError]
    | error e =>
      cases hs : store key with
      | none => simp [getFromNetworkFirst, hf, hs, exceptIsError]
      | some s =>
        obtain ⟨v, hv⟩ := Option.isSome_iff_exists.mp (hwf s hs)
        simp [getFromNetworkFirst, hf, hs, hv, exceptIsError]

/-- Witness for C2: the empty store and a rejecting fetch produce the
`Unavailable` failure. -/
theorem c2_unavailable_on_miss_witness :
    (getFromNetworkFirst "missing-key" (fun _ => Except.error "network down")
      true emptyStore).result =
      Except.error (LoadError.unavailable "network down") := by
  have hwf : wellFormedAt emptyStore "missing-key" := by
    intro s h
    exact absurd h (by simp [emptyStore])
  exact (c2_unavailable_on_miss "missing-key" emptyStore true hwf).1
    "network down" rfl

/-- C3: a successful fetch returns the fresh value and persists it, so a
later failing fetch on the resulting store still returns that value. -/
theorem c3_cache_round_trip (key e : String) (v : Json) (store : Store)
    (b : Bool) :
    (getFromNetworkFirst key (fun _ => Except.ok v) true store).result =
      Except.ok v ∧
    (getFromNetworkFirst key (fun _ => Except.error e) b
      (getFromNetworkFirst key (fun _ => Except.ok v) true store).store).result =
      Except.ok v := by
  have hmain : ∀ st : Store, st key = some (jserialize v) →
      (getFromNetworkFirst key (fun _ => Except.error e) b st).result =
        Except.ok v := by
    intro st hst
    simp [getFromNetworkFirst, hst, jparse_jserialize]
  refine ⟨rfl, hmain _ ?_⟩
  simp [getFromNetworkFirst, setStore]

/-- C4: when the store refuses the write, the load still succeeds with the
fresh value; the persistence failure never surfaces (and the store is left
unchanged). -/
theorem c4_persistence_failure_tolerated (key : String) (v : Json)
    (store : Store) :
    (getFromNetworkFirst key (fun _ => Except.ok v) false store).result =
      Except.ok v ∧
    (getFromNetworkFirst key (fun _ => Except.ok v) false store).store = store ∧
    (getFromNetworkFirst key (fun _ => Except.ok v) false store).notice =
      none :=
  ⟨rfl, rfl, rfl⟩

/-- C5: serializing any JSON value into the cache and deserializing it
back yields the identical value — in particular for every list of event
records with nested latitude/longitude positions (same field set, same
order, numbers and strings kept apart as AST constructors). -/
theorem c5_serialization_round_trip :
    (∀ v : Json, jparse (jserialize v) = some v) ∧
    (∀ es : List EventWire, jparse (jserialize (eventsWireJson es)) =
      some (eventsWireJson es)) :=
  ⟨jparse_jserialize, fun es => jparse_jserialize (eventsWireJson es)⟩

/-- C6: the successful path writes under exactly the `key` parameter, and
the fallback lookup reads only that same key — two stores agreeing on
`key` produce the same fallback result, so no separate pending or
versioned key is involved. -/
theorem c6_same_key_write_and_lookup (key : String) (v : Json)
    (store : Store) :
    (getFromNetworkFirst key (fun _ => Except.ok v) true store).store =
      setStore store key (jserialize v) ∧
    (∀ s1 s2 : Store, ∀ e : String, ∀ b1 b2 : Bool, s1 key = s2 key →
      (getFromNetworkFirst key (fun _ => Except.error e) b1 s1).result =
        (getFromNetworkFirst key (fun _ => Except.error e) b2 s2).result) := by
  constructor
  · rfl
  · intro s1 s2 e b1 b2 hkey
    unfold getFromNetworkFirst
    dsimp only
    rw [hkey]
    cases hs : s2 key with
    | none => rfl
    | some cached =>
      dsimp only
      cases hp : jparse cached with
      | none => rfl
      | some v => rfl

/-- Witness for C6 at the concrete key and a pair of concrete stores. -/
theorem c6_same_key_write_and_lookup_witness :
    (getFromNetworkFirst "events_future" (fun _ => Except.ok sampleEvents)
      true emptyStore).store =
      setStore emptyStore "events_future" (jserialize sampleEvents) ∧
    (getFromNetworkFirst "events_future" (fun _ => Except.error "down")
      true sampleStore).result =
      (getFromNetworkFirst "events_future" (fun _ => Except.error "down")
        false sampleStore).result :=
  ⟨(c6_same_key_write_and_lookup "events_future" sampleEvents emptyStore).1,
    (c6_same_key_write_and_lookup "events_future" sampleEvents emptyStore).2
      sampleStore sampleStore "down" true false rfl⟩

/-- C7: one call invokes the supplied network operation exactly once, and
a single failed attempt goes straight to the cache lookup — the whole
trace is the fetch followed by the one read, with no retry. -/
theorem c7_single_fetch_attempt (key : String)
    (f : Unit → Except String Json) (setOk : Bool) (store : Store) :
    ((getFromNetworkFirst key f setOk store).trace.count LoadOp.opFetch = 1) ∧
    (∀ e, (getFromNetworkFirst key (fun _ => Except.error e) setOk store).trace =
      [LoadOp.opFetch, LoadOp.opGet key]) := by
  constructor
  · unfold getFromNetworkFirst
    cases hf : f () with
    | ok v => rfl
    | error e =>
      cases hs : store key with
      | none => rfl
      | some s =>
        dsimp only
        cases hp : jparse s with
        | none => rfl
        | some v => rfl
  · intro e
    unfold getFromNetworkFirst
    cases hs : store key with
    | none => rfl
    | some s =>
      dsimp only
      cases hp : jparse s with
      | none => rfl
      | some v => rfl

/-- The `catch` branch only appends to the trace prefix it is given. -/
theorem offlineCatch_trace (store : Store) (pre : List COp) :
    ∃ tl, (offlineCatch store pre).trace = pre ++ tl := by
  unfold offlineCatch
  cases hs : store "events_future" with
  | none => exact ⟨_, rfl⟩
  | some cached =>
    dsimp only
    cases hp : jparse cached with
    | none => exact ⟨_, rfl⟩
    | some v => exact ⟨_, rfl⟩

/-- C8 counterexample: at the EventsMap call site the network operation is
the already-started promise `getEvents().then(...)`, evaluated before the
loader is invoked, so the trace of a concrete run begins with the network
start and only then the loader start — not the other way round. -/
theorem c8_counterexample :
    (fetchAndCacheEvents (Except.ok Json.jnull) true true emptyStore).trace.take 2 =
      [COp.networkStart, COp.loadStart] ∧
    (fetchAndCacheEvents (Except.ok Json.jnull) true true emptyStore).trace.take 2 ≠
      [COp.loadStart, COp.networkStart] := by
  constructor
  · rfl
  · intro h
    have h2 : ([COp.networkStart, COp.loadStart] : List COp) =
        [COp.loadStart, COp.networkStart] := h
    simp at h2

/-- C8 (amended): the loader's contract is
`load(key, fetchFresh: () -> Promise<T>)`, but the one call site passes
`getEvents().then(r => r.data)` — a promise started when the argument is
evaluated, before the loader runs.  Every run's trace therefore begins
with the network start followed by the loader start. -/
theorem c8_amended_network_starts_first (netResult : Except String Json)
    (setOk1 setOk2 : Bool) (store : Store) :
    (fetchAndCacheEvents netResult setOk1 setOk2 store).trace.take 2 =
      [COp.networkStart, COp.loadStart] := by
  unfold fetchAndCacheEvents
  dsimp only
  cases hr : (getFromNetworkFirst "events_future" (fun _ => netResult)
      setOk1 store).result with
  | ok v =>
    dsimp only
    split
    · rfl
    · obtain ⟨tl, htl⟩ := offlineCatch_trace
        (getFromNetworkFirst "events_future" (fun _ => netResult) setOk1 store).store
        [COp.networkStart, COp.loadStart]
      rw [htl]
      rfl
  | error e =>
    obtain ⟨tl, htl⟩ := offlineCatch_trace
      (getFromNetworkFirst "events_future" (fun _ => netResult) setOk1 store).store
      [COp.networkStart, COp.loadStart]
    rw [htl]
    rfl

/-- C9: logout removes only the user-info and access-token keys — the
loader's `events_future` entry, and any key outside `logoutKeys`, survives
`handleLogout` unchanged — and the loader itself never deletes an entry:
any key present before a run is still present after it. -/
theorem c9_logout_preserves_cache (store : Store) :
    handleLogout store "events_future" = store "events_future" ∧
    (∀ k, k ∉ logoutKeys → handleLogout store k = store k) ∧
    (∀ key f setOk k, store k ≠ none →
      (getFromNetworkFirst key f setOk store).store k ≠ none) := by
  refine ⟨?_, ?_, ?_⟩
  · show (if ("events_future" ∈ logoutKeys) then none
      else store "events_future") = store "events_future"
    rw [if_neg (by decide)]
  · intro k hk
    show (if (k ∈ logoutKeys) then none else store k) = store k
    rw [if_neg hk]
  · intro key f setOk k hk
    unfold getFromNetworkFirst
    cases hf : f () with
    | ok v =>
      dsimp only
      cases setOk with
      | false => exact hk
      | true =>
        show (if k = key then some (jserialize v) else store k) ≠ none
        by_cases hkk : k = key
        · rw [if_pos hkk]; exact Option.some_ne_none _
        · rw [if_neg hkk]; exact hk
    | error e =>
      dsimp only
      cases hs : store key with
      | none => exact hk
      | some s =>
        dsimp only
        cases hp : jparse s with
        | none => exact hk
        | some v => exact hk

/-- Witness for C9: the concrete store survives a concrete logout and a
concrete failing load. -/
theorem c9_logout_preserves_cache_witness :
    handleLogout sampleStore "events_future" = sampleStore "events_future" ∧
    handleLogout sampleStore "other" = sampleStore "other" ∧
    (getFromNetworkFirst "events_future" (fun _ => Except.error "down") true
      sampleStore).store "events_future" ≠ none := by
  obtain ⟨h1, h2, h3⟩ := c9_logout_preserves_cache sampleStore
  refine ⟨h1, h2 "other" (by decide), h3 "events_future"
    (fun _ => Except.error "down") true "events_future" ?_⟩
  intro h
  exact Option.noConfusion
    ((rfl : sampleStore "events_future" = some (jserialize sampleEvents)) ▸ h)

/-- A non-empty value of the `isoDateTime` memo is an ISO-8601 string: the
memo only ever returns `""` (blank inputs) or `toISOString` of an in-range
timestamp. -/
theorem isIso8601_of_isoDateTime {p : String → Option Int} {tz : Int}
    {d t iso : String} (h : isoDateTime p tz d t = some iso) (hne : iso ≠ "") :
    isIso8601 iso = true := by
  unfold isoDateTime at h
  split_ifs at h with hd ht
  · exact absurd (Option.some.inj h).symm hne
  · exact absurd (Option.some.inj h).symm hne
  · cases hp : p d with
    | none => rw [hp] at h; exact Option.noConfusion h
    | some ts0 =>
      rw [hp] at h
      dsimp only at h
      split at h
      · split at h
        · rename_i hts
          obtain rfl := (Option.some.inj h).symm
          exact isIso8601_toISOString _ hts
        · exact Option.noConfusion h
      · exact Option.noConfusion h

/-- C10: whatever event record `handleSave` hands to `createEvent` has a
trimmed non-empty name and description, a finite volunteer count whose
mantissa is strictly positive, a defined non-empty image URL, a non-empty
ISO-8601 `dateTime`, and an empty volunteer list. -/
theorem c10_submitted_event_validated (jsParseDate : String → Option Int)
    (tz : Int) (newId : String) (authUserId : Option String) (fs : FormState)
    (ev : Event) (hsub : handleSave jsParseDate tz newId authUserId fs = some ev) :
    ev.name = jsTrim fs.name ∧ ev.name ≠ "" ∧
    ev.description = jsTrim fs.description ∧ ev.description ≠ "" ∧
    (∃ m e, ev.volunteersNeeded = JsNum.fin m e ∧ 0 < m) ∧
    (∃ u, ev.imageUrl = some u ∧ u ≠ "") ∧
    ev.dateTime ≠ "" ∧ isIso8601 ev.dateTime = true ∧
    ev.volunteersIds = [] := by
  unfold handleSave at hsub
  cases hiso : isoDateTime jsParseDate tz fs.date fs.time with
  | none => rw [hiso] at hsub; exact Option.noConfusion hsub
  | some iso =>
    rw [hiso] at hsub
    dsimp only at hsub
    by_cases hcs : canSave iso fs
    · rw [if_pos hcs] at hsub
      unfold canSave at hcs
      simp only [Bool.and_eq_true, bne_iff_ne, ne_eq, and_assoc] at hcs
      obtain ⟨hname, hdesc, hisoNe, hvol, hlat, hlng, himg⟩ := hcs
      obtain rfl := Option.some.inj hsub
      refine ⟨rfl, hname, rfl, hdesc, ?_, ?_, hisoNe,
        isIso8601_of_isoDateTime hiso hisoNe, rfl⟩
      · cases hnum : numericVolunteers fs.volunteersNeeded with
        | fin m e =>
          refine ⟨m, e, rfl, ?_⟩
          · rw [hnum] at hvol
            exact of_decide_eq_true hvol
        | nan => rw [hnum] at hvol; exact absurd hvol (by simp)
        | inf b => rw [hnum] at hvol; exact absurd hvol (by simp)
      · cases hopt : fs.imageRemoteUrl with
        | none => rw [hopt] at himg; exact absurd himg (by simp)
        | some u =>
          rw [hopt] at himg
          refine ⟨u, rfl, ?_⟩
          · simpa using himg
    · rw [if_neg hcs] at hsub
      exact Option.noConfusion hsub

/-- Witness for C10: the filled-in sample form saves a concrete record
whose fields the theorem then validates. -/
theorem c10_submitted_event_validated_witness :
    handleSave sampleParse 0 "e1" (some "u7") sampleForm = some
      { id := "e1", name := "Beach Cleanup",
        description := "Help clean the beach",
        dateTime := "2025-12-01T14:30:00.000Z", organizerId := "u7",
        latitude := JsNum.fin 510447 (-4),
        longitude := JsNum.fin (-1140719) (-4),
        imageUrl := some "http", volunteersNeeded := JsNum.fin 4 0,
        volunteersIds := [] } ∧
    ("Beach Cleanup" : String) ≠ "" ∧
    isIso8601 "2025-12-01T14:30:00.000Z" = true := by
  have h : handleSave sampleParse 0 "e1" (some "u7") sampleForm = some
      { id := "e1", name := "Beach Cleanup",
        description := "Help clean the beach",
        dateTime := "2025-12-01T14:30:00.000Z", organizerId := "u7",
        latitude := JsNum.fin 510447 (-4),
        longitude := JsNum.fin (-1140719) (-4),
        imageUrl := some "http", volunteersNeeded := JsNum.fin 4 0,
        volunteersIds := [] } := by decide
  obtain ⟨-, hname, -, -, -, -, -, hiso8, -⟩ :=
    c10_submitted_event_validated sampleParse 0 "e1" (some "u7") sampleForm _ h
  exact ⟨h, hname, hiso8⟩
